import Mathlib

/-!
Shallow embedding, in Lean 4, of the `astra_agent` repository (Python),
covering the pieces of the code base that the verified properties talk
about:

* `utils/parsers.py` — `ContentParser` and `LinkExtractor`;
* `agent/core.py` — conversation history and error-pattern mining;
* `agent/llm.py` — the LLM client wrappers;
* `agent/log_fetcher.py` — link-driven fetching;
* `agent/tools.py` — the command-execution guard;
* `agent/knowledge.py` — the FAISS-backed knowledge base.

Python strings are modelled as `List Char`.  Python regular-expression
character classes (`\d`, `\s`, `\w`) are modelled over ASCII.  Calls into
third-party libraries (`openai`, `requests`, `faiss`, `subprocess`) are
modelled by explicit outcome parameters: the surrounding control flow is
translated from the source, while the library call itself becomes a value
(or oracle function) supplied to the definition.  Loops that consume a
variable number of characters per step are written with an explicit fuel
argument equal to the input length (each step consumes at least one
character, so the fuel is never exhausted); this keeps every definition
structurally recursive and hence evaluable by `decide`/`rfl`.
-/

namespace Astra

/-- Python strings, modelled as lists of characters. -/
abbrev Str := List Char

/-- ASCII model of Python's whitespace class `\s` (and of `str.strip()`
whitespace): space, tab, newline, carriage return, vertical tab, form feed. -/
def pyIsSpace (c : Char) : Bool :=
  c == ' ' || c == '\t' || c == '\n' || c == '\r' || c == '\x0b' || c == '\x0c'

/-- ASCII model of the regex class `\d`. -/
def pyIsDigit (c : Char) : Bool := c.isDigit

/-- ASCII model of the regex word class `\w`: letters, digits, underscore. -/
def wordChar (c : Char) : Bool := c.isAlphanum || c == '_'

/-- `str.lower()` (ASCII model). -/
def lowerStr (s : Str) : Str := s.map Char.toLower

/-- `str.strip()`: remove leading and trailing whitespace. -/
def pyStrip (s : Str) : Str :=
  ((s.dropWhile pyIsSpace).reverse.dropWhile pyIsSpace).reverse

/-- `content.split('\n')`: split on newline characters.  As in Python,
the empty string yields `[""]`. -/
def splitLines : Str → List Str
  | [] => [[]]
  | c :: rest =>
    if c = '\n' then [] :: splitLines rest
    else
      match splitLines rest with
      | l :: ls => (c :: l) :: ls
      | [] => [[c]]

/-- Substring containment: `needle in hay` for Python strings. -/
def containsSub (hay needle : Str) : Bool :=
  hay.tails.any (fun t => needle.isPrefixOf t)

/-! ## `utils/parsers.py` — `ContentParser`

The parser's regex table (`self.log_patterns`) compiles to the fixed
matchers below.  `(?i)(a|b|...)` patterns reduce to case-insensitive
substring search, in the alternation's order; the timestamp pattern
`\d{4}-\d{2}-\d{2}[\sT]\d{2}:\d{2}:\d{2}` is a fixed-shape 19-character
window; the IP pattern `\b(?:\d{1,3}\.){3}\d{1,3}\b` is matched with the
greedy/backtracking discipline of `re` (digits and `.` are disjoint, so
the greedy choice of each `\d{1,3}` is forced). -/

/-- Alternatives of `log_patterns['error'] = (?i)(error|exception|fail|fatal)`. -/
def errAlts : List Str := ["error".toList, "exception".toList, "fail".toList, "fatal".toList]

/-- Alternatives of `log_patterns['warn'] = (?i)(warn|warning)`. -/
def warnAlts : List Str := ["warn".toList, "warning".toList]

/-- Alternatives of `log_patterns['info'] = (?i)(info|information)`. -/
def infoAlts : List Str := ["info".toList, "information".toList]

/-- Alternatives of `log_patterns['debug'] = (?i)(debug|trace)`. -/
def debugAlts : List Str := ["debug".toList, "trace".toList]

/-- `re.search` of a case-insensitive alternation of literals: does any
alternative occur as a substring (case-insensitively)? -/
def hasAlt (alts : List Str) (s : Str) : Bool :=
  alts.any (fun a => containsSub (lowerStr s) a)

/-- Does `log_patterns['timestamp']` match at the head of the string?
The pattern is `\d{4}-\d{2}-\d{2}[\sT]\d{2}:\d{2}:\d{2}`. -/
def tsAt : Str → Bool
  | y1 :: y2 :: y3 :: y4 :: '-' :: mo1 :: mo2 :: '-' :: d1 :: d2 :: sep ::
      h1 :: h2 :: ':' :: mi1 :: mi2 :: ':' :: s1 :: s2 :: _ =>
    pyIsDigit y1 && pyIsDigit y2 && pyIsDigit y3 && pyIsDigit y4 &&
    pyIsDigit mo1 && pyIsDigit mo2 && pyIsDigit d1 && pyIsDigit d2 &&
    (pyIsSpace sep || sep == 'T') &&
    pyIsDigit h1 && pyIsDigit h2 && pyIsDigit mi1 && pyIsDigit mi2 &&
    pyIsDigit s1 && pyIsDigit s2
  | _ => false

/-- `re.search(log_patterns['timestamp'], s)` as a Boolean. -/
def hasTimestamp (s : Str) : Bool := s.tails.any tsAt

/-- `ContentParser._extract_timestamp`: the first timestamp match (its
matched text), if any. -/
def tsExtract (s : Str) : Option Str :=
  (s.tails.find? tsAt).map (fun t => t.take 19)

/-- First alternative of an alternation matching at the head of the
(lower-cased) string, returning its length — `re` tries alternatives in
order. -/
def findAltAt (alts : List Str) (s : Str) : Option Nat :=
  (alts.find? (fun a => a.isPrefixOf s)).map List.length

/-- Fuel-driven core of `len(re.findall(alternation, s))`: scan left to
right, counting non-overlapping matches (the scan operates on the
lower-cased text, which realises `re.IGNORECASE`). -/
def countAltsF (alts : List Str) : Nat → Str → Nat
  | 0, _ => 0
  | _, [] => 0
  | fuel + 1, c :: rest =>
    match findAltAt alts (c :: rest) with
    | some (n + 1) => 1 + countAltsF alts fuel (rest.drop n)
    | _ => countAltsF alts fuel rest

/-- `len(re.findall((?i)alternation, s))`. -/
def countAlts (alts : List Str) (s : Str) : Nat :=
  countAltsF alts (lowerStr s).length (lowerStr s)

/-- Consume one `\d{1,3}\.` group of the IP pattern.  The count of
leading digits is maximal; fewer digits would put a digit where `\.`
must match, so greedy matching is forced. -/
def ipOctet (s : Str) : Option Str :=
  let k := (s.takeWhile pyIsDigit).length
  if 1 ≤ k ∧ k ≤ 3 then
    match s.drop k with
    | '.' :: rest => some rest
    | _ => none
  else none

/-- Consume the trailing `\d{1,3}\b` of the IP pattern: a maximal run of
one to three digits followed by a non-word character (or the end). -/
def ipTailLen (s : Str) : Option Nat :=
  let k := (s.takeWhile pyIsDigit).length
  if 1 ≤ k ∧ k ≤ 3 then
    match (s.drop k).head? with
    | none => some k
    | some c => if wordChar c then none else some k
  else none

/-- Length of a match of `log_patterns['ip']` starting at the head of
the string (the leading `\b` is checked by the caller). -/
def ipMatchLen (s : Str) : Option Nat := do
  let r1 ← ipOctet s
  let r2 ← ipOctet r1
  let r3 ← ipOctet r2
  let k ← ipTailLen r3
  pure (s.length - r3.length + k)

/-- Fuel-driven scan of `re.findall(log_patterns['ip'], s)`.  The
Boolean argument records whether the previous character is a word
character (for the leading `\b`); scanning resumes at a match's end. -/
def ipScanF : Nat → Bool → Str → List Str
  | 0, _, _ => []
  | _, _, [] => []
  | fuel + 1, prevWord, c :: rest =>
    if prevWord then ipScanF fuel (wordChar c) rest
    else
      match ipMatchLen (c :: rest) with
      | some (n + 1) => (c :: rest).take (n + 1) :: ipScanF fuel true (rest.drop n)
      | _ => ipScanF fuel (wordChar c) rest

/-- `re.findall(log_patterns['ip'], s)`: all IP-shaped matches, left to
right, non-overlapping. -/
def ipFindall (s : Str) : List Str := ipScanF s.length false s

/-- `list(set(...))` for strings: Python's set order is unspecified, so
the embedding keeps first occurrences. -/
def pySetList (l : List Str) : List Str := l.dedup

/-- `ContentParser._is_log_content`. -/
def isLogContent (content : Str) : Bool :=
  hasTimestamp content ||
    (hasAlt errAlts content || hasAlt warnAlts content ||
     hasAlt infoAlts content || hasAlt debugAlts content)

/-- `ContentParser._extract_log_level`: first matching level name in the
order ERROR, WARN, INFO, DEBUG. -/
def extractLogLevel (line : Str) : Option Str :=
  if hasAlt errAlts line then some "ERROR".toList
  else if hasAlt warnAlts line then some "WARN".toList
  else if hasAlt infoAlts line then some "INFO".toList
  else if hasAlt debugAlts line then some "DEBUG".toList
  else none

/-- One entry of `_parse_logs`'s `entries`. -/
structure LogEntry where
  raw_line : Str
  timestamp : Option Str
  level : Option Str
  ip_addresses : List Str
  is_error : Bool
  is_warning : Bool
deriving DecidableEq

/-- The dictionary `ContentParser._parse_logs` returns. -/
structure LogsData where
  total_lines : Nat
  error_count : Nat
  warning_count : Nat
  entries : List LogEntry
deriving DecidableEq

/-- The dictionary `ContentParser._parse_plain_text` returns. -/
structure PlainData where
  line_count : Nat
  char_count : Nat
  has_timestamps : Bool
  has_errors : Bool
  ip_addresses : List Str
deriving DecidableEq

/-- `parsed_data` of a `parse_content` result: the empty dict of the
default result, or the output of one of the three sub-parsers.  The
`json` constructor carries the raw content handed to `json.loads`
(a third-party call whose output is opaque to this development). -/
inductive ParsedData where
  | empty
  | json (raw : Str)
  | logs (d : LogsData)
  | plain (d : PlainData)
deriving DecidableEq

/-- `ContentParser._parse_json` (the `json.loads` library call is
abstracted; only which branch ran is observable here). -/
def parseJson (content : Str) : ParsedData := .json content

/-- The log entry `_parse_logs` builds for one line. -/
def mkLogEntry (line : Str) : LogEntry :=
  { raw_line := line
    timestamp := tsExtract line
    level := extractLogLevel line
    ip_addresses := ipFindall line
    is_error := hasAlt errAlts line
    is_warning := hasAlt warnAlts line }

/-- `ContentParser._parse_logs`. -/
def parseLogsData (content : Str) : LogsData :=
  let lines := (splitLines (pyStrip content)).filter (fun l => ¬(pyStrip l).isEmpty)
  let parsed := lines.map mkLogEntry
  { total_lines := parsed.length
    error_count := (parsed.filter (·.is_error)).length
    warning_count := (parsed.filter (·.is_warning)).length
    entries := parsed.take 100 }

/-- `ContentParser._parse_plain_text`. -/
def parsePlainData (content : Str) : PlainData :=
  { line_count := (splitLines (pyStrip content)).length
    char_count := content.length
    has_timestamps := hasTimestamp content
    has_errors := hasAlt errAlts content
    ip_addresses := pySetList (ipFindall content) }

/-- `ContentParser._generate_summary`. -/
def generateSummary (content : Str) : Str :=
  let totalLines := (splitLines (pyStrip content)).length
  let errorCount := countAlts errAlts content
  let warningCount := countAlts warnAlts content
  let base := "内容包含 ".toList ++ (toString totalLines).toList ++ " 行".toList
  let base := if errorCount > 0 then
      base ++ ", ".toList ++ (toString errorCount).toList ++ " 个错误".toList
    else base
  if warningCount > 0 then
    base ++ ", ".toList ++ (toString warningCount).toList ++ " 个警告".toList
  else base

/-- The stripped lines of the content that match the error pattern
(`_extract_key_points`, first loop). -/
def errorLines (content : Str) : List Str :=
  ((splitLines content).filter (fun l => hasAlt errAlts l)).map pyStrip

/-- The error lines that `_extract_key_points` puts into the key points:
at most five (`error_lines[:5]`). -/
def keyPointsErrorLines (content : Str) : List Str :=
  (errorLines content).take 5

/-- The IP addresses that `_extract_key_points` joins into the key
points: at most ten (`ips[:10]`). -/
def keyPointsIPs (content : Str) : List Str :=
  (pySetList (ipFindall content)).take 10

/-- `ContentParser._extract_key_points`. -/
def extractKeyPoints (content : Str) : List Str :=
  let el := errorLines content
  let ips := pySetList (ipFindall content)
  (if el.isEmpty then []
   else ("发现 ".toList ++ (toString el.length).toList ++ " 个错误:".toList)
          :: keyPointsErrorLines content)
  ++
  (if ips.isEmpty then []
   else ["涉及IP地址: ".toList ++ List.intercalate ", ".toList (keyPointsIPs content)])

/-- The dictionary `ContentParser.parse_content` returns. -/
structure ParseResult where
  raw_content : Str
  content_type : Option Str
  parsed_data : ParsedData
  summary : Str
  key_points : List Str
deriving DecidableEq

/-- `if content_type and 'json' in content_type.lower()`. -/
def ctWantsJson : Option Str → Bool
  | none => false
  | some s => !s.isEmpty && containsSub (lowerStr s) "json".toList

/-- `ContentParser.parse_content`. -/
def parseContent (content : Str) (content_type : Option Str) : ParseResult :=
  let result : ParseResult :=
    { raw_content := content, content_type := content_type
      parsed_data := .empty, summary := [], key_points := [] }
  if (pyStrip content).isEmpty then result
  else
    let pd :=
      if ctWantsJson content_type then parseJson content
      else if isLogContent content then .logs (parseLogsData content)
      else .plain (parsePlainData content)
    { result with
        parsed_data := pd
        summary := generateSummary content
        key_points := extractKeyPoints content }

/-! ## `utils/parsers.py` — `LinkExtractor`

Each pattern of `self.patterns` compiles to a matcher returning the
length of the match starting at the head of the string (or `none`).
All patterns are applied with `re.IGNORECASE`; none can match the empty
string. -/

/-- Case-insensitive literal prefix: consume `lit` (given lower-case)
from the head and return the rest. -/
def matchLitCI (lit : Str) (s : Str) : Option Str :=
  if lowerStr (s.take lit.length) = lit then some (s.drop lit.length) else none

/-- The character class excluded by the `http` pattern's body
`[^\s<>"{}|\\^`\[\]]` (brace and backtick written by code point). -/
def httpExcluded (c : Char) : Bool :=
  pyIsSpace c || c == '<' || c == '>' || c == '"' || c == Char.ofNat 123 ||
    c == Char.ofNat 125 || c == '|' || c == '\\' || c == '^' ||
    c == Char.ofNat 96 || c == '[' || c == ']'

/-- Matcher of `patterns['http'] = https?://[^\s<>"{}|\\^`\[\]]+`.
(If the optional `s` is taken, `://` must follow: backtracking to the
no-`s` branch would put `s` where `:` must match, so it cannot help.) -/
def httpMatchLen (s : Str) : Option Nat :=
  match matchLitCI "http".toList s with
  | none => none
  | some r1 =>
    let sr : Nat × Str :=
      match r1 with
      | c :: rest => if c.toLower = 's' then (1, rest) else (0, r1)
      | [] => (0, r1)
    match matchLitCI "://".toList sr.2 with
    | none => none
    | some r3 =>
      let body := r3.takeWhile (fun c => ¬ httpExcluded c)
      if body.isEmpty then none else some (4 + sr.1 + 3 + body.length)

/-- Matcher of `patterns['ssh'] = ssh://[^\s]+`. -/
def sshMatchLen (s : Str) : Option Nat :=
  match matchLitCI "ssh://".toList s with
  | none => none
  | some r =>
    let body := r.takeWhile (fun c => ¬ pyIsSpace c)
    if body.isEmpty then none else some (6 + body.length)

/-- Matcher of `patterns['ftp'] = ftp://[^\s]+`. -/
def ftpMatchLen (s : Str) : Option Nat :=
  match matchLitCI "ftp://".toList s with
  | none => none
  | some r =>
    let body := r.takeWhile (fun c => ¬ pyIsSpace c)
    if body.isEmpty then none else some (6 + body.length)

/-- The body alternation of `patterns['file']`:
`(?:/[^\s]+|[A-Za-z]:[^\s]+)`, alternatives tried in order. -/
def fileBodyLen (s : Str) : Option Nat :=
  match s with
  | '/' :: rest =>
    let body := rest.takeWhile (fun c => ¬ pyIsSpace c)
    if body.isEmpty then none else some (1 + body.length)
  | c :: ':' :: rest =>
    if c.isAlpha then
      let body := rest.takeWhile (fun d => ¬ pyIsSpace d)
      if body.isEmpty then none else some (2 + body.length)
    else none
  | _ => none

/-- Matcher of `patterns['file'] = (?:file://)?(?:/[^\s]+|[A-Za-z]:[^\s]+)`:
try with the optional `file://` prefix first, then without. -/
def fileMatchLen (s : Str) : Option Nat :=
  match matchLitCI "file://".toList s with
  | some r =>
    match fileBodyLen r with
    | some n => some (7 + n)
    | none => fileBodyLen s
  | none => fileBodyLen s

/-- First alternative of `patterns['log_path']`: `/var/log/[^\s]+`. -/
def logPathAlt1 (s : Str) : Option Nat :=
  match matchLitCI "/var/log/".toList s with
  | none => none
  | some r =>
    let body := r.takeWhile (fun c => ¬ pyIsSpace c)
    if body.isEmpty then none else some (9 + body.length)

/-- Second alternative of `patterns['log_path']`: `/logs?/[^\s]+`.
(If the optional `s` is taken, `/` must follow; backtracking to the
no-`s` branch would put `s` where `/` must match, so it cannot help.) -/
def logPathAlt2 (s : Str) : Option Nat :=
  match matchLitCI "/log".toList s with
  | none => none
  | some r =>
    match r with
    | c :: d :: rest =>
      if c.toLower = 's' ∧ d = '/' then
        let body := rest.takeWhile (fun e => ¬ pyIsSpace e)
        if body.isEmpty then none else some (6 + body.length)
      else if c = '/' then
        let body := (d :: rest).takeWhile (fun e => ¬ pyIsSpace e)
        if body.isEmpty then none else some (5 + body.length)
      else none
    | _ => none

/-- Third alternative of `patterns['log_path']`: `\.log[^\s]*`
(the trailing class may be empty). -/
def logPathAlt3 (s : Str) : Option Nat :=
  match s with
  | '.' :: r =>
    match matchLitCI "log".toList r with
    | some rest => some (4 + (rest.takeWhile (fun c => ¬ pyIsSpace c)).length)
    | none => none
  | _ => none

/-- Matcher of `patterns['log_path']`, alternatives in order. -/
def logPathMatchLen (s : Str) : Option Nat :=
  match logPathAlt1 s with
  | some n => some n
  | none =>
    match logPathAlt2 s with
    | some n => some n
    | none => logPathAlt3 s

/-- Fuel-driven `re.finditer`: emit `(start, length)` pairs, resuming
after each match; positions with no match advance by one character. -/
def finditerF (m : Str → Option Nat) : Nat → Nat → Str → List (Nat × Nat)
  | 0, _, _ => []
  | _, _, [] => []
  | fuel + 1, pos, c :: rest =>
    match m (c :: rest) with
    | some (n + 1) => (pos, n + 1) :: finditerF m fuel (pos + n + 1) (rest.drop n)
    | _ => finditerF m fuel (pos + 1) rest

/-- `re.finditer(pattern, text, re.IGNORECASE)` as `(start, length)` pairs. -/
def finditer (m : Str → Option Nat) (s : Str) : List (Nat × Nat) :=
  finditerF m s.length 0 s

/-- One link dictionary built by `extract_links`; `ltype` and `stop`
model the `'type'` and `'end'` keys.  `url` is `match.group()`, which
the `re` API guarantees equals `text[start:end]`. -/
structure Link where
  ltype : Str
  url : Str
  start : Nat
  stop : Nat
deriving DecidableEq

/-- The `self.patterns` table of `LinkExtractor`, in insertion order,
with each pattern's compiled matcher. -/
def linkPatterns : List (Str × (Str → Option Nat)) :=
  [("http".toList, httpMatchLen),
   ("file".toList, fileMatchLen),
   ("ssh".toList, sshMatchLen),
   ("ftp".toList, ftpMatchLen),
   ("log_path".toList, logPathMatchLen)]

/-- The `links` list before sorting and deduplication: for each pattern
in table order, all of its matches in text order. -/
def rawLinks (text : Str) : List Link :=
  linkPatterns.flatMap (fun p =>
    (finditer p.2 text).map (fun q =>
      { ltype := p.1
        url := (text.drop q.1).take q.2
        start := q.1
        stop := q.1 + q.2 }))

/-- Stable insertion into a list sorted by nondecreasing `start`
(ties keep the inserted element first, as Python's stable sort keeps
original order). -/
def insertByStart (x : Link) : List Link → List Link
  | [] => [x]
  | y :: ys => if y.start < x.start then y :: insertByStart x ys else x :: y :: ys

/-- `links.sort(key=lambda x: x['start'])`: stable sort by `start`. -/
def sortByStart : List Link → List Link
  | [] => []
  | x :: xs => insertByStart x (sortByStart xs)

/-- The deduplication loop of `extract_links`: keep a link only if its
`url` was not seen before. -/
def dedupByUrl : List Link → List Str → List Link
  | [], _ => []
  | l :: ls, seen =>
    if l.url ∈ seen then dedupByUrl ls seen
    else l :: dedupByUrl ls (l.url :: seen)

/-- `LinkExtractor.extract_links`. -/
def extractLinks (text : Str) : List Link :=
  dedupByUrl (sortByStart (rawLinks text)) []

/-! ## `utils/parsers.py` — the objects' state

`ContentParser.__init__` and `LinkExtractor.__init__` store a table of
pattern source strings; no method assigns to `self` afterwards, so each
method is modelled as state-in/state-out with the result paired to the
(unchanged) object. -/

/-- The `ContentParser` object: its state is `self.log_patterns`. -/
structure ContentParser where
  log_patterns : List (Str × Str)
deriving DecidableEq

/-- `ContentParser.__init__` (pattern text as in the source; `{`/`}`
appear as their code points). -/
def ContentParser.init : ContentParser :=
  { log_patterns :=
      [("timestamp".toList,
        "\\d\x7b4\x7d-\\d\x7b2\x7d-\\d\x7b2\x7d[\\sT]\\d\x7b2\x7d:\\d\x7b2\x7d:\\d\x7b2\x7d".toList),
       ("ip".toList, "\\b(?:\\d\x7b1,3\x7d\\.)\x7b3\x7d\\d\x7b1,3\x7d\\b".toList),
       ("error".toList, "(?i)(error|exception|fail|fatal)".toList),
       ("warn".toList, "(?i)(warn|warning)".toList),
       ("info".toList, "(?i)(info|information)".toList),
       ("debug".toList, "(?i)(debug|trace)".toList)] }

/-- `ContentParser.parse_content` as a method call: the object's state
is threaded through explicitly (the method only reads it). -/
def ContentParser.parseContentM (self : ContentParser) (content : Str)
    (content_type : Option Str) : ContentParser × ParseResult :=
  (self, parseContent content content_type)

/-- The `LinkExtractor` object: its state is `self.patterns`. -/
structure LinkExtractor where
  patterns : List (Str × Str)
deriving DecidableEq

/-- `LinkExtractor.__init__`. -/
def LinkExtractor.init : LinkExtractor :=
  { patterns :=
      [("http".toList, "https?://[^\\s<>\"\x7b\x7d|\\\\^`\\[\\]]+".toList),
       ("file".toList, "(?:file://)?(?:/[^\\s]+|[A-Za-z]:[^\\s]+)".toList),
       ("ssh".toList, "ssh://[^\\s]+".toList),
       ("ftp".toList, "ftp://[^\\s]+".toList),
       ("log_path".toList, "(?:/var/log/[^\\s]+|/logs?/[^\\s]+|\\.log[^\\s]*)".toList)] }

/-- `LinkExtractor.extract_links` as a method call, state threaded. -/
def LinkExtractor.extractLinksM (self : LinkExtractor) (text : Str) :
    LinkExtractor × List Link :=
  (self, extractLinks text)

/-! ## `agent/core.py` — conversation history and error patterns -/

/-- `AgentConfig.max_conversation_turns` (`config/config.py`). -/
def maxConversationTurns : Nat := 20

/-- One entry of `self.conversation_history`. -/
structure Turn where
  timestamp : Str
  query : Str
  response : Str
deriving DecidableEq

/-- `EngineerAgent._update_conversation_history`: append the new turn,
then keep only the last 20 entries (`history[-20:]`) when the length
exceeds 20.  The cap of 20 is hard-coded in `core.py`. -/
def updateConversationHistory (history : List Turn) (now query response : Str) :
    List Turn :=
  let h := history ++ [⟨now, query, response⟩]
  if h.length > 20 then h.drop (h.length - 20) else h

/-- Fuel-driven `str.split()` (split on whitespace runs, no empties). -/
def pySplitF : Nat → Str → List Str
  | 0, _ => []
  | _, [] => []
  | fuel + 1, c :: rest =>
    if pyIsSpace c then pySplitF fuel rest
    else
      (c :: rest.takeWhile (fun d => ¬ pyIsSpace d))
        :: pySplitF fuel (rest.dropWhile (fun d => ¬ pyIsSpace d))

/-- `str.split()` with no arguments. -/
def pySplit (s : Str) : List Str := pySplitF s.length s

/-- `str.isdigit()` on a non-empty word (ASCII model). -/
def isAllDigits (w : Str) : Bool := w.all pyIsDigit

/-- `patterns[word] = patterns.get(word, 0) + 1` on an insertion-ordered
dictionary modelled as an association list. -/
def bumpCount (pats : List (Str × Nat)) (w : Str) : List (Str × Nat) :=
  if pats.any (fun p => p.1 = w) then
    pats.map (fun p => if p.1 = w then (p.1, p.2 + 1) else p)
  else pats ++ [(w, 1)]

/-- The dictionary built by the loops of `_find_error_patterns`. -/
def countWords (errors : List Str) : List (Str × Nat) :=
  errors.foldl
    (fun pats err =>
      (pySplit (lowerStr err)).foldl
        (fun ps w => if w.length > 3 ∧ ¬ isAllDigits w then bumpCount ps w else ps)
        pats)
    []

/-- Stable insertion by descending count (`sorted(..., reverse=True)` is
stable, so ties keep insertion order). -/
def insertDescByCount (x : Str × Nat) : List (Str × Nat) → List (Str × Nat)
  | [] => [x]
  | y :: ys => if y.2 > x.2 then y :: insertDescByCount x ys else x :: y :: ys

/-- `sorted(patterns.items(), key=lambda x: x[1], reverse=True)`. -/
def sortDescByCount : List (Str × Nat) → List (Str × Nat)
  | [] => []
  | x :: xs => insertDescByCount x (sortDescByCount xs)

/-- `EngineerAgent._find_error_patterns`: word frequencies of the error
lines, sorted by descending count, truncated to ten. -/
def findErrorPatterns (errors : List Str) : List (Str × Nat) :=
  (sortDescByCount (countWords errors)).take 10

/-! ## `agent/llm.py` — `LLMClient` -/

/-- Outcome of a third-party API call: its payload, or a raised
exception carrying `str(e)`. -/
inductive ApiOutcome (α : Type) where
  | ok (payload : α)
  | exn (msg : Str)
deriving DecidableEq

/-- The extracted `response.choices[0].message`. -/
structure ChatMessage where
  content : Str
  function_call : Option (Str × Str)
deriving DecidableEq

/-- What `chat_completion` can return: a plain content string, or the
function-call dictionary built by `_handle_function_call`. -/
inductive ChatValue where
  | content (s : Str)
  | functionCall (name : Str) (arguments : Str)
deriving DecidableEq

/-- `LLMClient.chat_completion`.  The `Except` layer models a Python
exception escaping the call; the body's `try`/`except` catches every
exception and returns an error-message string instead. -/
def chatCompletion (api : ApiOutcome ChatMessage) : Except Str ChatValue :=
  match api with
  | .ok msg =>
    match msg.function_call with
    | some fc => .ok (.functionCall fc.1 fc.2)
    | none => .ok (.content msg.content)
  | .exn e => .ok (.content ("LLM调用失败: ".toList ++ e))

/-- `AgentConfig.vector_dim` (`config/config.py`). -/
def vectorDim : Nat := 1536

/-- `LLMClient.get_embedding`: on success the embedding of
`response.data[0]`; on any exception, a zero vector of length
`config.vector_dim` (the element type and its zero are parameters,
since the payload values come from the API). -/
def getEmbedding {E : Type} (dim : Nat) (zero : E) (api : ApiOutcome (List E)) :
    Except Str (List E) :=
  match api with
  | .ok emb => .ok emb
  | .exn _ => .ok (List.replicate dim zero)

/-! ## `agent/log_fetcher.py` — `LogFetcher` -/

/-- Outcome of `_fetch_http` (the `requests` interaction): the returned
dictionary (abstracted as a type parameter — it is always truthy), or a
raised exception. -/
inductive FetchOutcome (α : Type) where
  | ok (data : α)
  | exn (msg : Str)
deriving DecidableEq

/-- One element of the list `fetch_from_user_input` returns. -/
structure FetchResult (α : Type) where
  source_link : Link
  fetched_data : Option α
  error : Option Str
  fetch_success : Bool
deriving DecidableEq

/-- `LogFetcher.fetch_content` (the `link_type` argument is always the
link's `'type'` value, which is never empty): dispatch on the type,
fetch for `http`, return `None` for unsupported types and on a caught
exception. -/
def fetchContent {α : Type} (http : Str → FetchOutcome α) (url : Str)
    (link_type : Str) : Option α :=
  if link_type = "http".toList then
    match http url with
    | .ok d => some d
    | .exn _ => none
  else none

/-- The loop of `fetch_from_user_input`, instrumented with the list of
`(url, type)` arguments handed to `fetch_content` — one call per
iteration, no retry. -/
def fetchLoop {α : Type} (http : Str → FetchOutcome α) :
    List Link → List (FetchResult α) × List (Str × Str)
  | [] => ([], [])
  | link :: rest =>
    let r : FetchResult α :=
      match fetchContent http link.url link.ltype with
      | some d => ⟨link, some d, none, true⟩
      | none => ⟨link, none, some "Failed to fetch content".toList, false⟩
    let rt := fetchLoop http rest
    (r :: rt.1, (link.url, link.ltype) :: rt.2)

/-- `LogFetcher.fetch_from_user_input`. -/
def fetchFromUserInput {α : Type} (http : Str → FetchOutcome α)
    (user_input : Str) : List (FetchResult α) × List (Str × Str) :=
  fetchLoop http (extractLinks user_input)

/-! ## `agent/tools.py` — `ToolRegistry.execute_command` -/

/-- Outcome of `subprocess.run(command, ..., timeout=30)`. -/
inductive RunOutcome where
  | finished (stdout stderr : Str) (returncode : Int)
  | timedOut
  | exn (msg : Str)
deriving DecidableEq

/-- The dictionaries `execute_command` can return. -/
inductive CmdResult where
  | refusal
  | output (stdout stderr : Str) (returncode : Int)
  | timeoutError
  | failure (msg : Str)
deriving DecidableEq

/-- The `dangerous_commands` list of `execute_command`. -/
def dangerousCommands : List Str :=
  ["rm".toList, "del".toList, "format".toList, "shutdown".toList, "reboot".toList]

/-- `any(cmd in command.lower() for cmd in dangerous_commands)`. -/
def isDangerous (command : Str) : Bool :=
  dangerousCommands.any (fun d => containsSub (lowerStr command) d)

/-- `ToolRegistry.execute_command`, instrumented with the list of
commands handed to `subprocess.run`. -/
def executeCommand (run : Str → RunOutcome) (command : Str) :
    CmdResult × List Str :=
  if isDangerous command then (.refusal, [])
  else
    match run command with
    | .finished o e c => (.output o e c, [command])
    | .timedOut => (.timeoutError, [command])
    | .exn m => (.failure m, [command])

/-! ## `agent/knowledge.py` — `KnowledgeBase`

The FAISS index is modelled by the list of vectors it holds
(`ntotal` is its length); vector values, metadata values and scores are
type parameters, since they come from the embedding API and FAISS. -/

/-- The state of a `KnowledgeBase` object. -/
structure KnowledgeBase (V M : Type) where
  vectors : List V
  documents : List Str
  metadata : List M

/-- The fresh-index branch of `_load_or_create_index`, before any
knowledge is seeded: a new empty `faiss.IndexFlatIP` next to the empty
`documents` and `metadata` lists from `__init__`. -/
def freshKnowledgeBase (V M : Type) : KnowledgeBase V M := ⟨[], [], []⟩

/-- `KnowledgeBase.add_knowledge`: `index.add` of one embedding row,
then append the document and its metadata. -/
def addKnowledge {V M : Type} (kb : KnowledgeBase V M) (content : Str)
    (meta : M) (embedding : V) : KnowledgeBase V M :=
  { vectors := kb.vectors ++ [embedding]
    documents := kb.documents ++ [content]
    metadata := kb.metadata ++ [meta] }

/-- The alignment invariant of the knowledge base. -/
def kbInvariant {V M : Type} (kb : KnowledgeBase V M) : Prop :=
  kb.documents.length = kb.metadata.length ∧
  kb.metadata.length = kb.vectors.length

/-- What `index.search(query, k)` hands back. -/
structure FaissSearchOut (S : Type) where
  scores : List S
  indices : List Int

/-- The documented contract of `faiss.Index.search` asked for `k`
neighbours: `k` scores, `k` indices, every index in `[-1, ntotal)`. -/
def faissSearchOK {V M S : Type} (kb : KnowledgeBase V M) (k : Nat)
    (o : FaissSearchOut S) : Prop :=
  o.scores.length = k ∧ o.indices.length = k ∧
  ∀ i ∈ o.indices, -1 ≤ i ∧ i < kb.vectors.length

/-- The `zip(scores[0], indices[0])` pairs that pass the `idx >= 0`
filter in `KnowledgeBase.search`. -/
def searchPairs {V M S : Type} (kb : KnowledgeBase V M)
    (oracle : Nat → FaissSearchOut S) (top_k : Nat) : List (S × Int) :=
  let o := oracle (min top_k kb.vectors.length)
  (o.scores.zip o.indices).filter (fun p => 0 ≤ p.2)

/-- One element of the `results` list of `KnowledgeBase.search`. -/
structure SearchHit (S M : Type) where
  content : Str
  metadata : M
  score : S

/-- `KnowledgeBase.search`: empty index short-circuits to `[]`;
otherwise FAISS is consulted for `min(top_k, ntotal)` neighbours and
each surviving index is looked up in `documents`/`metadata`.  A `none`
result models an uncaught `IndexError` on an invalid lookup. -/
def kbSearch {V M S : Type} (kb : KnowledgeBase V M)
    (oracle : Nat → FaissSearchOut S) (top_k : Nat) :
    Option (List (SearchHit S M)) :=
  if kb.vectors.length = 0 then some []
  else
    (searchPairs kb oracle top_k).mapM (fun p => do
      let d ← kb.documents.get? p.2.toNat
      let m ← kb.metadata.get? p.2.toNat
      pure ⟨d, m, p.1⟩)

/-! ## Verified properties -/

/-- C6: the parser and link extractor are deterministic: two runs of
`ContentParser.parse_content` on the same content and content type
return equal results, and two runs of `LinkExtractor.extract_links` on
the same text return equal lists.  In this embedding both are pure
functions of their inputs, so equality of repeated runs is definitional. -/
theorem C6_parser_extractor_deterministic (content : Str)
    (content_type : Option Str) (text : Str) :
    parseContent content content_type = parseContent content content_type ∧
    extractLinks text = extractLinks text :=
  ⟨rfl, rfl⟩

/-- C7: `parse_content` and `extract_links` keep no persistent state:
called as methods with the object's state threaded through, they return
the `log_patterns` table, respectively the `patterns` table, unchanged
(no method of either class assigns to `self`). -/
theorem C7_no_persistent_state (p : ContentParser) (content : Str)
    (content_type : Option Str) (x : LinkExtractor) (text : Str) :
    (p.parseContentM content content_type).1 = p ∧
    (x.extractLinksM text).1 = x :=
  ⟨rfl, rfl⟩

/-- C3 counterexample: with twenty turns already recorded, appending a
new `(query, response)` entry drops the oldest turn, so not every
previously recorded turn is preserved. -/
theorem C3_counterexample :
    (⟨[], "0".toList, []⟩ : Turn) ∈
      ((List.range 20).map (fun i => (⟨[], (toString i).toList, []⟩ : Turn))) ∧
    (⟨[], "0".toList, []⟩ : Turn) ∉
      updateConversationHistory
        ((List.range 20).map (fun i => (⟨[], (toString i).toList, []⟩ : Turn)))
        [] "q".toList "r".toList := by
  decide

/-- C3 (amended): recording a new conversation turn preserves every
previously recorded turn only while fewer than twenty turns are stored;
at twenty turns the oldest entry is dropped, the history never grows
beyond twenty entries, and every entry of the prior state except
possibly the oldest one survives the update. -/
theorem C3_history_capped (history : List Turn) (now query response : Str) :
    (history.length < 20 →
      updateConversationHistory history now query response =
        history ++ [⟨now, query, response⟩]) ∧
    (history.length = 20 →
      updateConversationHistory history now query response =
        history.drop 1 ++ [⟨now, query, response⟩]) ∧
    (history.length ≤ 20 →
      (updateConversationHistory history now query response).length ≤ 20) ∧
    (∀ x ∈ history.drop (history.length + 1 - 20),
      x ∈ updateConversationHistory history now query response) := by
  refine ⟨?_, ?_, ?_, ?_⟩
  · intro h
    simp only [updateConversationHistory, List.length_append, List.length_cons,
      List.length_nil]
    rw [if_neg (by omega)]
  · intro h
    simp only [updateConversationHistory, List.length_append, List.length_cons,
      List.length_nil]
    rw [if_pos (by omega), show history.length + (0 + 1) - 20 = 1 by omega,
      List.drop_append_of_le_length (by omega)]
  · intro _
    simp only [updateConversationHistory]
    split_ifs with hgt
    · simp only [List.length_drop, List.length_append, List.length_cons,
        List.length_nil] at hgt ⊢
      omega
    · simp only [List.length_append, List.length_cons, List.length_nil] at hgt ⊢
      omega
  · intro x hx
    simp only [updateConversationHistory, List.length_append, List.length_cons,
      List.length_nil]
    split_ifs with hgt
    · rw [show history.length + (0 + 1) - 20 = history.length + 1 - 20 by omega,
        List.drop_append_of_le_length (by omega)]
      exact List.mem_append_left _ hx
    · have : history.length + 1 - 20 = 0 := by omega
      rw [this] at hx
      exact List.mem_append_left _ hx

/-- C3 witness: on an empty history the update is a plain append. -/
theorem C3_history_capped_witness :
    updateConversationHistory [] [] "q".toList "r".toList =
      [⟨[], "q".toList, "r".toList⟩] :=
  (C3_history_capped [] [] "q".toList "r".toList).1 (by decide)

/-- C4 counterexample: a failing API call is not propagated as a
failure.  `chat_completion` swallows the exception and returns the
string `"LLM调用失败: ..."` as an ordinary value, and `get_embedding`
returns a zero vector of length `vector_dim`. -/
theorem C4_counterexample :
    chatCompletion (.exn "boom".toList) =
      Except.ok (ChatValue.content "LLM调用失败: boom".toList) ∧
    getEmbedding vectorDim (0 : Int) (.exn "boom".toList) =
      Except.ok (List.replicate vectorDim (0 : Int)) := by
  exact ⟨rfl, rfl⟩

/-- C4 (amended): on a successful API call without a function call,
`chat_completion` returns exactly the message content (and exactly the
function-call value otherwise); on a successful call `get_embedding`
returns exactly the API's embedding; an API failure is caught and
converted into an ordinary return value — an error-message string for
`chat_completion` and a zero vector of length `vector_dim` for
`get_embedding` — rather than propagated. -/
theorem C4_llm_passthrough {E : Type} (msg : ChatMessage) (e : Str)
    (emb : List E) (dim : Nat) (z : E) :
    (chatCompletion (.ok msg) = Except.ok (ChatValue.content msg.content) ↔
      msg.function_call = none) ∧
    (∀ n args, msg.function_call = some (n, args) →
      chatCompletion (.ok msg) = Except.ok (ChatValue.functionCall n args)) ∧
    chatCompletion (.exn e) =
      Except.ok (ChatValue.content ("LLM调用失败: ".toList ++ e)) ∧
    getEmbedding dim z (.ok emb) = Except.ok emb ∧
    getEmbedding dim z (.exn e) = Except.ok (List.replicate dim z) := by
  refine ⟨?_, ?_, rfl, rfl, rfl⟩
  · cases hfc : msg.function_call with
    | none => simp [chatCompletion, hfc]
    | some fc => simp [chatCompletion, hfc]
  · intro n args h
    simp [chatCompletion, h]

/-- C4 witness: a successful call with no function call returns the
message content. -/
theorem C4_llm_passthrough_witness :
    chatCompletion (.ok ⟨"hi".toList, none⟩) =
      Except.ok (ChatValue.content "hi".toList) :=
  (@C4_llm_passthrough Int ⟨"hi".toList, none⟩ [] [] 0 0).1.mpr rfl

/-- C8: `execute_command` refuses, without spawning a subprocess, every
command containing (case-insensitively) one of the dangerous
substrings, and spawns a subprocess exactly for the commands containing
none of them (the instrumented second component lists the commands
handed to `subprocess.run`). -/
theorem C8_dangerous_command_guard (run : Str → RunOutcome) (command : Str) :
    ((∃ d ∈ dangerousCommands, containsSub (lowerStr command) d = true) →
      executeCommand run command = (CmdResult.refusal, [])) ∧
    ((∀ d ∈ dangerousCommands, containsSub (lowerStr command) d = false) →
      (executeCommand run command).2 = [command] ∧
      (executeCommand run command).1 ≠ CmdResult.refusal) ∧
    ((executeCommand run command).2 ≠ [] ↔
      ∀ d ∈ dangerousCommands, containsSub (lowerStr command) d = false) := by
  have hd : isDangerous command = true ↔
      ∃ d ∈ dangerousCommands, containsSub (lowerStr command) d = true := by
    simp [isDangerous, List.any_eq_true]
  by_cases hD : isDangerous command = true
  · obtain ⟨d, hdm, hdc⟩ := hd.mp hD
    refine ⟨fun _ => by simp [executeCommand, hD], ?_, ?_⟩
    · intro hall
      exact absurd hdc (by simp [hall d hdm])
    · simp only [executeCommand, hD, if_true]
      constructor
      · intro h; exact absurd rfl h
      · intro hall; exact absurd hdc (by simp [hall d hdm])
  · have hD' : isDangerous command = false := by simpa using hD
    have hall : ∀ d ∈ dangerousCommands, containsSub (lowerStr command) d = false := by
      intro d hm
      cases hc : containsSub (lowerStr command) d with
      | false => rfl
      | true => exact absurd (hd.mpr ⟨d, hm, hc⟩) (by simp [hD'])
    refine ⟨?_, fun _ => ?_, ?_⟩
    · rintro ⟨d, hm, hc⟩
      exact absurd (hd.mpr ⟨d, hm, hc⟩) (by simp [hD'])
    · simp only [executeCommand, hD', Bool.false_eq_true, if_false]
      cases run command <;> simp
    · simp only [executeCommand, hD', Bool.false_eq_true, if_false]
      cases run command <;> exact ⟨fun _ => hall, fun _ => by simp⟩

/-- C8 witness: `rm -rf /` contains the dangerous substring `rm`, is
refused, and spawns nothing. -/
theorem C8_dangerous_command_guard_witness :
    executeCommand (fun _ => RunOutcome.timedOut) "rm -rf /".toList =
      (CmdResult.refusal, []) :=
  (C8_dangerous_command_guard (fun _ => RunOutcome.timedOut) "rm -rf /".toList).1
    ⟨"rm".toList, by decide, by decide⟩

/-- The truthiness-plus-containment test of `parse_content`'s JSON
branch is equivalent to "a content type is given and contains `json`
case-insensitively" (containment already forces non-emptiness). -/
theorem ctWantsJson_iff (ct : Option Str) :
    ctWantsJson ct = true ↔
      ∃ s, ct = some s ∧ containsSub (lowerStr s) "json".toList = true := by
  cases ct with
  | none => simp [ctWantsJson]
  | some s =>
    simp only [ctWantsJson, Bool.and_eq_true, Option.some.injEq]
    constructor
    · rintro ⟨_, hc⟩
      exact ⟨s, rfl, hc⟩
    · rintro ⟨s', hs, hc⟩
      cases hs
      refine ⟨?_, hc⟩
      cases s with
      | nil => exact absurd hc (by decide)
      | cons a as => simp

/-- C1: `parse_content` is a regex-driven classifier.  Empty or
whitespace-only content yields the default result (`parsed_data` empty,
empty summary, no key points) with no further parsing; otherwise the
content is parsed as JSON exactly when a content type is given that
contains `json` case-insensitively; otherwise it is parsed as a log
exactly when the timestamp regex or one of the error/warn/info/debug
level regexes matches; otherwise it is parsed as plain text. -/
theorem C1_parse_content_classifier (content : Str) (content_type : Option Str) :
    ((pyStrip content).isEmpty = true →
      parseContent content content_type =
        { raw_content := content, content_type := content_type,
          parsed_data := .empty, summary := [], key_points := [] }) ∧
    ((pyStrip content).isEmpty = false →
      (((parseContent content content_type).parsed_data = parseJson content) ↔
        ∃ s, content_type = some s ∧
          containsSub (lowerStr s) "json".toList = true) ∧
      (ctWantsJson content_type = false →
        (((parseContent content content_type).parsed_data =
            ParsedData.logs (parseLogsData content)) ↔
          (hasTimestamp content ||
            (hasAlt errAlts content || hasAlt warnAlts content ||
             hasAlt infoAlts content || hasAlt debugAlts content)) = true)) ∧
      (ctWantsJson content_type = false → isLogContent content = false →
        (parseContent content content_type).parsed_data =
          ParsedData.plain (parsePlainData content))) := by
  constructor
  · intro h
    simp [parseContent, h]
  · intro h
    have hIs : (hasTimestamp content ||
        (hasAlt errAlts content || hasAlt warnAlts content ||
         hasAlt infoAlts content || hasAlt debugAlts content)) =
        isLogContent content := rfl
    refine ⟨?_, ?_, ?_⟩
    · rw [← ctWantsJson_iff]
      by_cases hj : ctWantsJson content_type = true
      · simp [parseContent, h, hj, parseJson]
      · have hj' : ctWantsJson content_type = false := by simpa using hj
        by_cases hl : isLogContent content = true
        · simp [parseContent, h, hj', hl, parseJson]
        · have hl' : isLogContent content = false := by simpa using hl
          simp [parseContent, h, hj', hl', parseJson]
    · intro hj'
      rw [hIs]
      by_cases hl : isLogContent content = true
      · simp [parseContent, h, hj', hl]
      · have hl' : isLogContent content = false := by simpa using hl
        simp [parseContent, h, hj', hl']
    · intro hj' hl'
      simp [parseContent, h, hj', hl']

/-- C1 witness: `"ERROR: boom"` with no content type is nonempty, has a
log level, and is parsed as a log. -/
theorem C1_parse_content_classifier_witness :
    (parseContent "ERROR: boom".toList none).parsed_data =
      ParsedData.logs (parseLogsData "ERROR: boom".toList) := by
  have h := (C1_parse_content_classifier "ERROR: boom".toList none).2 (by decide)
  exact (h.2.1 (by decide)).mpr (by decide)

/-- Stable descending insertion preserves length. -/
theorem insertDescByCount_length (x : Str × Nat) (l : List (Str × Nat)) :
    (insertDescByCount x l).length = l.length + 1 := by
  induction l with
  | nil => rfl
  | cons y ys ih =>
    simp only [insertDescByCount]
    split_ifs with h
    · simp [ih]
    · simp

/-- The stable descending sort preserves length. -/
theorem sortDescByCount_length (l : List (Str × Nat)) :
    (sortDescByCount l).length = l.length := by
  induction l with
  | nil => rfl
  | cons x xs ih =>
    simp only [sortDescByCount]
    rw [insertDescByCount_length, ih, List.length_cons]

/-- C2: the parser's outputs are bounded: log parsing keeps at most 100
entries, the key points include at most 5 error lines and at most 10 IP
addresses (and at most 7 items in total), and error-pattern analysis
returns at most 10 patterns. -/
theorem C2_bounded_outputs (content : Str) (errors : List Str) :
    (parseLogsData content).entries.length ≤ 100 ∧
    (keyPointsErrorLines content).length ≤ 5 ∧
    (keyPointsIPs content).length ≤ 10 ∧
    (extractKeyPoints content).length ≤ 7 ∧
    (findErrorPatterns errors).length ≤ 10 := by
  refine ⟨?_, ?_, ?_, ?_, ?_⟩
  · simp only [parseLogsData]
    exact List.length_take_le 100 _
  · simp only [keyPointsErrorLines]
    exact List.length_take_le 5 _
  · simp only [keyPointsIPs]
    exact List.length_take_le 10 _
  · simp only [extractKeyPoints, List.length_append]
    have h1 : (keyPointsErrorLines content).length ≤ 5 := by
      simp only [keyPointsErrorLines]
      exact List.length_take_le 5 _
    split_ifs <;> simp only [List.length_cons, List.length_nil] <;> omega
  · simp only [findErrorPatterns]
    exact List.length_take_le 10 _

/-- The fetch loop consults `fetch_content` exactly once per link, in
order, and produces exactly one result per link, success iff the fetch
returned data. -/
theorem fetchLoop_spec {α : Type} (http : Str → FetchOutcome α)
    (links : List Link) :
    (fetchLoop http links).2 = links.map (fun l => (l.url, l.ltype)) ∧
    List.Forall₂ (fun (link : Link) (r : FetchResult α) =>
        r.source_link = link ∧
        (r.fetch_success = true ↔
          ∃ d, fetchContent http link.url link.ltype = some d) ∧
        (fetchContent http link.url link.ltype = none →
          r.fetch_success = false ∧
          r.error = some "Failed to fetch content".toList ∧
          r.fetched_data = none))
      links (fetchLoop http links).1 := by
  induction links with
  | nil => exact ⟨rfl, List.Forall₂.nil⟩
  | cons link rest ih =>
    refine ⟨?_, ?_⟩
    · simp only [fetchLoop, List.map_cons]
      rw [ih.1]
    · simp only [fetchLoop]
      refine List.Forall₂.cons ?_ ih.2
      cases hfc : fetchContent http link.url link.ltype with
      | some d => exact ⟨by simp [hfc], by simp [hfc], by simp [hfc]⟩
      | none => exact ⟨by simp [hfc], by simp [hfc], by simp [hfc]⟩

/-- C5: no retries: `fetch_from_user_input` attempts each extracted
link exactly once (the instrumented trace equals the extracted links'
`(url, type)` pairs, in extraction order) and returns exactly one
result per extracted link, in order; a failed or unsupported fetch
yields a `fetch_success = false` result carrying an error message
instead of a second attempt. -/
theorem C5_no_retries {α : Type} (http : Str → FetchOutcome α)
    (user_input : Str) :
    (fetchFromUserInput http user_input).2 =
      (extractLinks user_input).map (fun l => (l.url, l.ltype)) ∧
    List.Forall₂ (fun (link : Link) (r : FetchResult α) =>
        r.source_link = link ∧
        (r.fetch_success = true ↔
          ∃ d, fetchContent http link.url link.ltype = some d) ∧
        (fetchContent http link.url link.ltype = none →
          r.fetch_success = false ∧
          r.error = some "Failed to fetch content".toList ∧
          r.fetched_data = none))
      (extractLinks user_input) (fetchFromUserInput http user_input).1 :=
  fetchLoop_spec http (extractLinks user_input)

/-- C5 witness: with every HTTP request failing, the input
`"see http://a.b"` (whose extracted links are the `http` match and the
`file`-pattern match `p://a.b`) is attempted once per link. -/
theorem C5_no_retries_witness :
    (fetchFromUserInput
        (fun _ => (FetchOutcome.exn "down".toList : FetchOutcome Unit))
        "see http://a.b".toList).2 =
      [("http://a.b".toList, "http".toList), ("p://a.b".toList, "file".toList)] := by
  rw [(C5_no_retries (fun _ => FetchOutcome.exn "down".toList)
    "see http://a.b".toList).1]
  decide

/-- Stable insertion produces a permutation of consing. -/
theorem insertByStart_perm (x : Link) (l : List Link) :
    List.Perm (insertByStart x l) (x :: l) := by
  induction l with
  | nil => exact List.Perm.refl _
  | cons y ys ih =>
    simp only [insertByStart]
    split_ifs with h
    · exact (ih.cons y).trans (List.Perm.swap x y ys)
    · exact List.Perm.refl _

/-- The stable sort permutes its input. -/
theorem sortByStart_perm (l : List Link) : List.Perm (sortByStart l) l := by
  induction l with
  | nil => exact List.Perm.refl _
  | cons x xs ih =>
    exact (insertByStart_perm x (sortByStart xs)).trans (ih.cons x)

/-- Stable insertion preserves sortedness by `start`. -/
theorem insertByStart_pairwise (x : Link) (l : List Link)
    (hl : l.Pairwise (fun a b => a.start ≤ b.start)) :
    (insertByStart x l).Pairwise (fun a b => a.start ≤ b.start) := by
  induction l with
  | nil => simp [insertByStart]
  | cons y ys ih =>
    obtain ⟨hy, hys⟩ := List.pairwise_cons.mp hl
    simp only [insertByStart]
    split_ifs with h
    · refine List.Pairwise.cons ?_ (ih hys)
      intro b hb
      rcases List.mem_cons.mp ((insertByStart_perm x ys).mem_iff.mp hb) with rfl | hbys
      · omega
      · exact hy b hbys
    · refine List.Pairwise.cons ?_ (List.Pairwise.cons hy hys)
      intro b hb
      rcases List.mem_cons.mp hb with rfl | hbys
      · omega
      · exact le_trans (by omega) (hy b hbys)

/-- The sort is sorted: `start` positions are nondecreasing. -/
theorem sortByStart_pairwise (l : List Link) :
    (sortByStart l).Pairwise (fun a b => a.start ≤ b.start) := by
  induction l with
  | nil => simp [sortByStart]
  | cons x xs ih => exact insertByStart_pairwise x (sortByStart xs) ih

/-- Deduplication yields a sublist of its input. -/
theorem dedupByUrl_sublist (l : List Link) (seen : List Str) :
    List.Sublist (dedupByUrl l seen) l := by
  induction l generalizing seen with
  | nil => simp [dedupByUrl]
  | cons a as ih =>
    simp only [dedupByUrl]
    split_ifs with h
    · exact (ih seen).cons a
    · exact (ih (a.url :: seen)).cons₂ a

/-- Every link surviving deduplication has a URL outside the seen set. -/
theorem dedupByUrl_url_not_seen {x : Link} :
    ∀ (l : List Link) (seen : List Str), x ∈ dedupByUrl l seen → x.url ∉ seen := by
  intro l
  induction l with
  | nil => intro seen h; simp [dedupByUrl] at h
  | cons a as ih =>
    intro seen h
    simp only [dedupByUrl] at h
    split_ifs at h with hc
    · exact ih seen h
    · rcases List.mem_cons.mp h with rfl | h2
      · exact hc
      · intro hx
        exact ih (a.url :: seen) h2 (List.mem_cons_of_mem _ hx)

/-- After deduplication the URLs are pairwise distinct. -/
theorem dedupByUrl_urls_nodup :
    ∀ (l : List Link) (seen : List Str),
      (dedupByUrl l seen).Pairwise (fun a b => a.url ≠ b.url) := by
  intro l
  induction l with
  | nil => intro seen; simp [dedupByUrl]
  | cons a as ih =>
    intro seen
    simp only [dedupByUrl]
    split_ifs with hc
    · exact ih seen
    · refine List.Pairwise.cons ?_ (ih (a.url :: seen))
      intro b hb he
      exact dedupByUrl_url_not_seen as (a.url :: seen) hb
        (he ▸ List.mem_cons_self a.url seen)

/-- On a `start`-sorted input, deduplication keeps, for each URL, an
entry whose `start` is minimal among all entries with that URL. -/
theorem dedupByUrl_min_start :
    ∀ (l : List Link) (seen : List Str),
      l.Pairwise (fun a b => a.start ≤ b.start) →
      ∀ x ∈ dedupByUrl l seen, ∀ y ∈ l, y.url = x.url → x.start ≤ y.start := by
  intro l
  induction l with
  | nil => intro seen _ x hx; simp [dedupByUrl] at hx
  | cons a as ih =>
    intro seen hp x hx y hy hurl
    obtain ⟨ha, has⟩ := List.pairwise_cons.mp hp
    simp only [dedupByUrl] at hx
    split_ifs at hx with hc
    · rcases List.mem_cons.mp hy with rfl | hy2
      · exact absurd (hurl ▸ hc) (dedupByUrl_url_not_seen as seen hx)
      · exact ih seen has x hx y hy2 hurl
    · rcases List.mem_cons.mp hx with rfl | hx2
      · rcases List.mem_cons.mp hy with rfl | hy2
        · exact le_refl _
        · exact ha y hy2
      · rcases List.mem_cons.mp hy with rfl | hy2
        · exact absurd (hurl ▸ List.mem_cons_self y.url seen)
            (dedupByUrl_url_not_seen as (y.url :: seen) hx2)
        · exact ih (a.url :: seen) has x hx2 y hy2 hurl

/-- Every raw link's `url` is the slice of the text between its `start`
and `stop` positions. -/
theorem rawLinks_url_slice (text : Str) :
    ∀ x ∈ rawLinks text, x.url = (text.drop x.start).take (x.stop - x.start) := by
  intro x hx
  simp only [rawLinks, List.mem_flatMap, List.mem_map] at hx
  obtain ⟨p, _, q, _, rfl⟩ := hx
  simp only
  congr 1
  omega

/-- C9: `extract_links` returns pairwise-distinct URLs, in nondecreasing
order of `start`; each returned entry is one of the raw matches and has
minimal `start` among the raw matches with its URL; and each entry's
`url` equals the input slice from `start` to `end`. -/
theorem C9_extract_links_shape (text : Str) :
    (extractLinks text).Pairwise (fun a b => a.url ≠ b.url) ∧
    (extractLinks text).Pairwise (fun a b => a.start ≤ b.start) ∧
    (∀ x ∈ extractLinks text, x ∈ rawLinks text) ∧
    (∀ x ∈ extractLinks text, ∀ y ∈ rawLinks text,
      y.url = x.url → x.start ≤ y.start) ∧
    (∀ x ∈ extractLinks text,
      x.url = (text.drop x.start).take (x.stop - x.start)) := by
  have hperm : List.Perm (sortByStart (rawLinks text)) (rawLinks text) :=
    sortByStart_perm (rawLinks text)
  have hsorted := sortByStart_pairwise (rawLinks text)
  have hsub : List.Sublist (extractLinks text) (sortByStart (rawLinks text)) :=
    dedupByUrl_sublist (sortByStart (rawLinks text)) []
  have hmemraw : ∀ x ∈ extractLinks text, x ∈ rawLinks text := by
    intro x hx
    exact hperm.mem_iff.mp (hsub.subset hx)
  refine ⟨dedupByUrl_urls_nodup _ _, hsorted.sublist hsub, hmemraw, ?_, ?_⟩
  · intro x hx y hy hurl
    exact dedupByUrl_min_start (sortByStart (rawLinks text)) [] hsorted x hx
      y (hperm.mem_iff.mpr hy) hurl
  · intro x hx
    exact rawLinks_url_slice text x (hmemraw x hx)

/-- C9 witness: on a concrete input with a duplicated URL, the returned
URLs are pairwise distinct. -/
theorem C9_extract_links_shape_witness :
    (extractLinks "x http://a.b http://a.b".toList).Pairwise
      (fun a b => a.url ≠ b.url) :=
  (C9_extract_links_shape "x http://a.b http://a.b".toList).1

/-- Over `Option`, `mapM` succeeds with a list of the same length as
soon as the function succeeds on every element. -/
theorem mapM_isSome_length {A B : Type} (f : A → Option B) :
    ∀ l : List A, (∀ a ∈ l, (f a).isSome) →
      ∃ bs, l.mapM f = some bs ∧ bs.length = l.length := by
  intro l
  induction l with
  | nil => intro _; exact ⟨[], rfl, rfl⟩
  | cons a as ih =>
    intro h
    obtain ⟨b, hb⟩ := Option.isSome_iff_exists.mp (h a (List.mem_cons_self a as))
    obtain ⟨bs, hbs, hlen⟩ := ih (fun x hx => h x (List.mem_cons_of_mem a hx))
    refine ⟨b :: bs, ?_, by simp [hlen]⟩
    rw [List.mapM_cons, hb, hbs]
    rfl

/-- C10: the knowledge base keeps `documents`, `metadata` and the FAISS
index aligned: the invariant holds for a fresh empty index, is
preserved by every `add_knowledge`, and under it (given the FAISS
search contract) `search` on an empty base returns `[]` while otherwise
every index surviving the `idx >= 0` filter is a valid position into
`documents` and `metadata`, the lookups all succeed, and at most
`min(top_k, ntotal)` results are returned. -/
theorem C10_knowledge_base_aligned {V M S : Type} (kb : KnowledgeBase V M)
    (oracle : Nat → FaissSearchOut S) (top_k : Nat)
    (hinv : kbInvariant kb)
    (hc : ∀ k, faissSearchOK kb k (oracle k)) :
    kbInvariant (freshKnowledgeBase V M) ∧
    (∀ (content : Str) (meta : M) (embedding : V),
      kbInvariant (addKnowledge kb content meta embedding)) ∧
    (kb.vectors.length = 0 → kbSearch kb oracle top_k = some []) ∧
    (∀ p ∈ searchPairs kb oracle top_k,
      p.2.toNat < kb.documents.length ∧ p.2.toNat < kb.metadata.length) ∧
    (∃ hits, kbSearch kb oracle top_k = some hits ∧
      hits.length ≤ min top_k kb.vectors.length) := by
  obtain ⟨hdm, hmv⟩ := hinv
  have hvalid : ∀ p ∈ searchPairs kb oracle top_k,
      p.2.toNat < kb.documents.length ∧ p.2.toNat < kb.metadata.length := by
    intro p hp
    obtain ⟨s, i⟩ := p
    simp only [searchPairs, List.mem_filter, decide_eq_true_eq] at hp
    obtain ⟨hzip, hpos⟩ := hp
    obtain ⟨-, hi⟩ := List.of_mem_zip hzip
    obtain ⟨-, hilt⟩ := (hc (min top_k kb.vectors.length)).2.2 i hi
    simp only at hpos ⊢
    omega
  refine ⟨⟨rfl, rfl⟩, ?_, ?_, hvalid, ?_⟩
  · intro content meta embedding
    constructor <;> simp [addKnowledge, hdm, hmv]
  · intro hzero
    simp [kbSearch, hzero]
  · by_cases hzero : kb.vectors.length = 0
    · refine ⟨[], by simp [kbSearch, hzero], by simp⟩
    · have hlen : (searchPairs kb oracle top_k).length ≤
          min top_k kb.vectors.length := by
        have h1 := List.length_filter_le
          (fun p : S × Int => decide (0 ≤ p.2))
          ((oracle (min top_k kb.vectors.length)).scores.zip
            (oracle (min top_k kb.vectors.length)).indices)
        have h2 := @List.length_zip S Int
          (oracle (min top_k kb.vectors.length)).scores
          (oracle (min top_k kb.vectors.length)).indices
        obtain ⟨hs, hi, -⟩ := hc (min top_k kb.vectors.length)
        simp only [searchPairs]
        omega
      have hsome : ∀ p ∈ searchPairs kb oracle top_k,
          ((fun p : S × Int => do
            let d ← kb.documents.get? p.2.toNat
            let m ← kb.metadata.get? p.2.toNat
            pure (⟨d, m, p.1⟩ : SearchHit S M)) p).isSome := by
        intro p hp
        obtain ⟨h1, h2⟩ := hvalid p hp
        have hd := List.get?_eq_get h1
        have hm := List.get?_eq_get h2
        rw [List.get?_eq_getElem?] at hd hm
        simp [hd, hm]
      obtain ⟨hits, hmap, hlen2⟩ := mapM_isSome_length
        (fun p : S × Int => do
          let d ← kb.documents.get? p.2.toNat
          let m ← kb.metadata.get? p.2.toNat
          pure (⟨d, m, p.1⟩ : SearchHit S M))
        (searchPairs kb oracle top_k) hsome
      refine ⟨hits, ?_, by omega⟩
      simpa only [kbSearch, hzero, if_false] using hmap

/-- C10 witness: a one-document knowledge base satisfying the invariant,
searched with a well-behaved FAISS oracle that always returns index 0,
yields at most `min 5 1` results. -/
theorem C10_knowledge_base_aligned_witness :
    ∃ hits,
      kbSearch (⟨[()], ["doc".toList], [()]⟩ : KnowledgeBase Unit Unit)
        (fun k => ⟨List.replicate k (), List.replicate k 0⟩) 5 = some hits ∧
      hits.length ≤
        min 5 (⟨[()], ["doc".toList], [()]⟩ : KnowledgeBase Unit Unit).vectors.length :=
  (C10_knowledge_base_aligned (⟨[()], ["doc".toList], [()]⟩ : KnowledgeBase Unit Unit)
    (fun k => ⟨List.replicate k (), List.replicate k 0⟩) 5
    ⟨rfl, rfl⟩
    (fun k => ⟨by simp, by simp, fun i hi => by
      have h0 := List.eq_of_mem_replicate hi
      subst h0
      exact ⟨by decide, by decide⟩⟩)).2.2.2.2

end Astra
